import Mathlib

/-!
Verification of the pdf-tools repository core: a shallow embedding of
the page-transform engine (delete / insert / reorder / split / merge,
protect / unprotect), the compression pipeline dispatcher, and the
signature-extraction crop stage, together with theorems settling the
specification claims about them.

Pages are modelled by abstract identifiers (natural numbers); a file on
disk is modelled by its path, an on-disk flag, and the outcome of the
two structural parses the code performs (PyMuPDF and PyPDF2), each
either an error message or the parsed page list.
-/

set_option autoImplicit false

namespace PdfTools

/-- A page of a document, identified abstractly. -/
abbrev Page := Nat

/-- A candidate input file as the operations see it: its path, whether it
exists on disk, and the result of opening it with each of the two parsers
used by validate_pdf (an error message, or the list of parsed pages). -/
structure FSFile where
  onDisk : Bool
  path : String
  fitz : Except String (List Page)
  pypdf : Except String (List Page)

/-- The characters of a string, each lower-cased (model of str.lower). -/
def lowerChars (s : String) : List Char := s.data.map Char.toLower

/-- Model of path.lower().endswith of the .pdf extension: the lower-cased
character sequence of the path ends with the four characters .pdf. -/
def endsWithPdf (p : String) : Bool := List.isSuffixOf ".pdf".data (lowerChars p)

/-- Transliteration of validate_pdf: existence check, extension check on
the lower-cased path, PyMuPDF open with zero-page check, then PyPDF2 open
with zero-page check; returns a validity flag and an error message. -/
def validate_pdf (f : FSFile) : Bool × String :=
  if !f.onDisk then (false, "File does not exist")
  else if !(endsWithPdf f.path) then (false, "File is not a PDF")
  else
    match f.fitz with
    | .error e => (false, "Failed to validate PDF: " ++ e)
    | .ok ps =>
      if ps.length = 0 then (false, "PDF contains no pages")
      else
        match f.pypdf with
        | .error e => (false, "Invalid PDF structure: " ++ e)
        | .ok qs =>
          if qs.length = 0 then (false, "PDF contains no pages")
          else (true, "")

/-- The pages obtained by reopening a file with PdfReader (PyPDF2), as the
page operations do after validation. -/
def readerPages (f : FSFile) : List Page :=
  match f.pypdf with
  | .ok ps => ps
  | .error _ => []

/-- Model of os.path.basename: the component after the last slash. -/
def basename (p : String) : String :=
  String.mk ((p.data.reverse.takeWhile (fun c => c != '/')).reverse)

/-- Result record of merge_pdfs: either an error message, or total pages,
number of merged files, per-file info (basename, page count) and the
concatenated output pages. -/
inductive MergeResult where
  | err (msg : String)
  | ok (total_pages : Nat) (merged_files : Nat)
       (file_info : List (String × Nat)) (outputPages : List Page)
deriving DecidableEq

/-- The merge accumulation loop: for each input in order, append its
reader pages to the writer, record (basename, page count), and add the
page count to the running total. -/
def mergeLoop : List FSFile → Nat → List (String × Nat) → List Page →
    Nat × List (String × Nat) × List Page
  | [], total, infos, pages => (total, infos, pages)
  | f :: rest, total, infos, pages =>
      mergeLoop rest (total + (readerPages f).length)
        (infos ++ [(basename f.path, (readerPages f).length)])
        (pages ++ readerPages f)

/-- Transliteration of merge_pdfs: require at least two inputs, validate
each input in order aborting on the first invalid one, then concatenate
all pages in input order. -/
def merge_pdfs (input_paths : List FSFile) : MergeResult :=
  if input_paths.length < 2 then
    .err "At least two PDF files are required for merging"
  else
    match input_paths.find? (fun f => !(validate_pdf f).1) with
    | some f =>
        .err ("Invalid PDF file " ++ basename f.path ++ ": " ++ (validate_pdf f).2)
    | none =>
        let r := mergeLoop input_paths 0 [] []
        .ok r.1 input_paths.length r.2.1 r.2.2

theorem mergeLoop_spec (inputs : List FSFile) :
    ∀ (total : Nat) (infos : List (String × Nat)) (pages : List Page),
      mergeLoop inputs total infos pages =
        (total + (inputs.map (fun f => (readerPages f).length)).sum,
         infos ++ inputs.map (fun f => (basename f.path, (readerPages f).length)),
         pages ++ (inputs.map readerPages).flatten) := by
  induction inputs with
  | nil => intro total infos pages; simp [mergeLoop]
  | cons f rest ih =>
      intro total infos pages
      simp [mergeLoop, ih, Nat.add_assoc, List.append_assoc]

theorem find?_first_of_split {α : Type} (p : α → Bool) :
    ∀ (pre : List α) (f : α) (post : List α),
      (∀ g ∈ pre, p g = false) → p f = true →
      (pre ++ f :: post).find? p = some f := by
  intro pre
  induction pre with
  | nil => intro f post _ hf; simp [List.find?, hf]
  | cons g rest ih =>
      intro f post hpre hf
      have hg : p g = false := hpre g (by simp)
      simp only [List.cons_append, List.find?, hg]
      exact ih f post (fun x hx => hpre x (by simp [hx])) hf

/-- Example document file with three pages, valid under both parsers. -/
def pdfFileA : FSFile := ⟨true, "a.pdf", .ok [1, 2, 3], .ok [1, 2, 3]⟩

/-- Example document file with four pages, valid under both parsers. -/
def pdfFileB : FSFile := ⟨true, "b.pdf", .ok [4, 5, 6, 7], .ok [4, 5, 6, 7]⟩

/-- Example file whose name does not end in .pdf although its bytes
parse as a well-formed two-page document under both parsers. -/
def txtFile : FSFile := ⟨true, "doc.txt", .ok [8, 9], .ok [8, 9]⟩

/-- C3: Merge is all-or-nothing. With at least two inputs: if every input
validates, the output concatenates all reader pages preserving
per-document and overall input order, file_info lists (basename, page
count) in input order, and the reported total is the sum of the input
page counts; if some input is invalid, the merge fails with an error
naming the first offending input and produces no output. -/
theorem merge_all_or_nothing (inputs : List FSFile)
    (h2 : 2 ≤ inputs.length) :
    ((∀ f ∈ inputs, (validate_pdf f).1 = true) →
      merge_pdfs inputs =
        .ok ((inputs.map (fun f => (readerPages f).length)).sum)
            inputs.length
            (inputs.map (fun f => (basename f.path, (readerPages f).length)))
            ((inputs.map readerPages).flatten))
    ∧ (∀ (pre : List FSFile) (f : FSFile) (post : List FSFile),
        inputs = pre ++ f :: post →
        (∀ g ∈ pre, (validate_pdf g).1 = true) →
        (validate_pdf f).1 = false →
        merge_pdfs inputs =
          .err ("Invalid PDF file " ++ basename f.path ++ ": " ++ (validate_pdf f).2)) := by
  have hlt : ¬ inputs.length < 2 := Nat.not_lt.mpr h2
  constructor
  · intro hall
    have hfind : inputs.find? (fun f => !(validate_pdf f).1) = none := by
      apply List.find?_eq_none.mpr
      intro f hf
      simp [hall f hf]
    simp only [merge_pdfs, if_neg hlt, hfind, mergeLoop_spec]
    simp
  · intro pre f post hsplit hpre hf
    have hfind : inputs.find? (fun g => !(validate_pdf g).1) = some f := by
      rw [hsplit]
      apply find?_first_of_split
      · intro g hg; simp [hpre g hg]
      · simp [hf]
    simp only [merge_pdfs, if_neg hlt, hfind]

/-- Witness for C3: merging a valid 3-page and a valid 4-page document
yields a 7-page output with file_info in input order. -/
theorem merge_all_or_nothing_witness :
    merge_pdfs [pdfFileA, pdfFileB] =
      .ok 7 2 [("a.pdf", 3), ("b.pdf", 4)] [1, 2, 3, 4, 5, 6, 7] := by
  have h := (merge_all_or_nothing [pdfFileA, pdfFileB] (by decide)).1 (by decide)
  simpa [pdfFileA, pdfFileB, readerPages, basename] using h

/-- Result record of remove_pdf_pages. -/
inductive RemoveResult where
  | err (msg : String)
  | ok (pages_removed : List Int) (total_pages new_page_count : Nat)
       (outputPages : List Page)
deriving DecidableEq

/-- Transliteration of remove_pdf_pages: reject an empty request or a
missing file, then scan the requested 1-based pages and fail on the first
page outside 1..total, else keep exactly the 0-based positions that are
not listed for removal. -/
def remove_pdf_pages (f : FSFile) (pages_to_remove : List Int) : RemoveResult :=
  if pages_to_remove.isEmpty then .err "No pages specified to remove"
  else if !f.onDisk then .err "Input file does not exist"
  else
    let ps := readerPages f
    let total := ps.length
    match pages_to_remove.find? (fun p => decide (p < 1) || decide ((total : Int) < p)) with
    | some p => .err s!"Page {p} is out of range. PDF has {total} pages."
    | none =>
        let zeroBased := pages_to_remove.map (fun p => p - 1)
        let out := ((List.range total).filter
          (fun (i : Nat) => !(zeroBased.contains (Int.ofNat i)))).map (fun i => ps.getD i 0)
        .ok pages_to_remove total (total - pages_to_remove.length) out

/-- Python repr of a list of integers, as interpolated into the delete
error message of the API route. -/
def pyIntListRepr (l : List Int) : String :=
  "[" ++ String.intercalate ", " (l.map toString) ++ "]"

/-- Result of the delete-pages API route: an error payload (message plus
the optional total_pages field of the JSON body), or a success payload
carrying pages_removed, total_pages and the outcome of the underlying
remove_pdf_pages call that wrote the output file. -/
inductive DeleteApiResult where
  | err (msg : String) (total_pages : Option Nat)
  | ok (pages_removed : List Int) (total_pages : Nat) (written : RemoveResult)
deriving DecidableEq

/-- Transliteration of delete_pdf_pages_api (after upload handling):
reject an empty page list, read the page total, collect ALL invalid page
numbers and fail with the full list plus the total, else run
remove_pdf_pages and report success. -/
def delete_pdf_pages_api (f : FSFile) (pages : List Int) : DeleteApiResult :=
  if pages.isEmpty then .err "No pages specified to remove" none
  else
    let total := (readerPages f).length
    let invalid := pages.filter (fun p => decide (p < 1) || decide ((total : Int) < p))
    if !invalid.isEmpty then
      .err ("Invalid page numbers: " ++ pyIntListRepr invalid ++ s!". PDF has {total} pages.")
        (some total)
    else
      .ok pages total (remove_pdf_pages f pages)

/-- C2: Delete validates every requested index against 1..pageCount
before any mutation; when any index is invalid it fails with an error
reporting the complete list of invalid indices together with the page
count (every invalid index is in the reported list), and only when all
indices are valid does it proceed to write an output. -/
theorem delete_reports_all_invalid (f : FSFile) (pages : List Int)
    (ps : List Page) (hps : f.pypdf = .ok ps) (hne : pages ≠ []) :
    ((pages.filter (fun p => decide (p < 1) || decide ((ps.length : Int) < p))) ≠ [] →
      delete_pdf_pages_api f pages =
        .err ("Invalid page numbers: " ++
              pyIntListRepr (pages.filter
                (fun p => decide (p < 1) || decide ((ps.length : Int) < p))) ++
              s!". PDF has {ps.length} pages.")
          (some ps.length)
      ∧ ∀ p ∈ pages, (p < 1 ∨ (ps.length : Int) < p) →
          p ∈ pages.filter (fun p => decide (p < 1) || decide ((ps.length : Int) < p)))
    ∧ ((pages.filter (fun p => decide (p < 1) || decide ((ps.length : Int) < p))) = [] →
        delete_pdf_pages_api f pages =
          .ok pages ps.length (remove_pdf_pages f pages)) := by
  have hrp : readerPages f = ps := by simp [readerPages, hps]
  have hnb : pages.isEmpty = false := by
    cases pages with
    | nil => exact absurd rfl hne
    | cons a l => rfl
  constructor
  · intro hinv
    constructor
    · have : (pages.filter
          (fun p => decide (p < 1) || decide ((ps.length : Int) < p))).isEmpty = false := by
        cases h : pages.filter (fun p => decide (p < 1) || decide ((ps.length : Int) < p)) with
        | nil => exact absurd h hinv
        | cons a l => rfl
      simp only [delete_pdf_pages_api, hnb, Bool.false_eq_true, if_false, hrp, this]
      simp
    · intro p hp hbad
      refine List.mem_filter.mpr ⟨hp, ?_⟩
      rcases hbad with h1 | h2
      · simp [h1]
      · simp [h2]
  · intro hinv
    simp only [delete_pdf_pages_api, hnb, Bool.false_eq_true, if_false, hrp, hinv]
    simp

/-- Witness for C2: deleting pages 0, 2 and 9 from a 3-page document is
rejected with an error listing both invalid indices 0 and 9 together
with the page count 3. -/
theorem delete_reports_all_invalid_witness :
    delete_pdf_pages_api pdfFileA [0, 2, 9] =
      .err "Invalid page numbers: [0, 9]. PDF has 3 pages." (some 3) := by
  have h := (delete_reports_all_invalid pdfFileA [0, 2, 9] [1, 2, 3] rfl
    (by decide)).1 (by decide)
  simpa [pyIntListRepr] using h.1

/-- Result record of reorder_pages. -/
inductive ReorderResult where
  | err (msg : String)
  | ok (original_pages reordered_pages : Nat) (new_order : List Int)
       (outputPages : List Page)
deriving DecidableEq

/-- Transliteration of reorder_pages: validate the file, reject an empty
order, fail on the first 0-based index outside 0..total-1, else emit the
source pages in the requested order. -/
def reorder_pages (f : FSFile) (new_order : List Int) : ReorderResult :=
  let v := validate_pdf f
  if !v.1 then .err ("Invalid PDF file: " ++ v.2)
  else if new_order.isEmpty then .err "No page order specified"
  else
    let ps := readerPages f
    let total := ps.length
    match new_order.find? (fun i => decide (i < 0) || decide ((total : Int) ≤ i)) with
    | some i => .err s!"Page index {i} is out of range. PDF has {total} pages."
    | none => .ok total new_order.length new_order
        (new_order.map (fun i => ps.getD i.toNat 0))

/-- C5: for a valid document and a non-empty order whose entries all lie
in 0..pageCount-1, Reorder succeeds, output page k is source page
order[k] (duplicates duplicate, omissions drop), and when some entry is
out of range it fails with the invalid-page-index error naming the first
such entry. -/
theorem reorder_generalized_selection (f : FSFile) (order : List Int)
    (hv : validate_pdf f = (true, "")) (hne : order ≠ []) :
    ((∀ i ∈ order, 0 ≤ i ∧ i < ((readerPages f).length : Int)) →
      reorder_pages f order =
        .ok (readerPages f).length order.length order
          (order.map (fun i => (readerPages f).getD i.toNat 0))
      ∧ ∀ k, k < order.length →
          (order.map (fun i => (readerPages f).getD i.toNat 0)).getD k 0 =
            (readerPages f).getD (order.getD k 0).toNat 0)
    ∧ ((∃ i ∈ order, i < 0 ∨ ((readerPages f).length : Int) ≤ i) →
        ∃ i₀, i₀ ∈ order ∧ (i₀ < 0 ∨ ((readerPages f).length : Int) ≤ i₀) ∧
          reorder_pages f order =
            .err s!"Page index {i₀} is out of range. PDF has {(readerPages f).length} pages.") := by
  have hnb : order.isEmpty = false := by
    cases order with
    | nil => exact absurd rfl hne
    | cons a l => rfl
  constructor
  · intro hall
    have hfind : order.find?
        (fun i => decide (i < 0) || decide (((readerPages f).length : Int) ≤ i)) = none := by
      apply List.find?_eq_none.mpr
      intro i hi
      have h := hall i hi
      simp [not_lt.mpr h.1, not_le.mpr h.2]
    constructor
    · simp only [reorder_pages, hv, hnb]
      simp [hfind]
    · intro k hk
      have hk2 : k < (order.map (fun i => (readerPages f).getD i.toNat 0)).length := by
        simpa using hk
      rw [List.getD_eq_getElem _ _ hk2, List.getD_eq_getElem _ _ hk,
        List.getElem_map]
  · intro hbad
    have hsome : (order.find?
        (fun i => decide (i < 0) || decide (((readerPages f).length : Int) ≤ i))).isSome := by
      rcases hbad with ⟨i, hi, hcase⟩
      apply List.find?_isSome.mpr
      refine ⟨i, hi, ?_⟩
      rcases hcase with h1 | h2
      · simp [h1]
      · simp [h2]
    rcases Option.isSome_iff_exists.mp hsome with ⟨i₀, hfind⟩
    refine ⟨i₀, List.mem_of_find?_eq_some hfind, ?_, ?_⟩
    · have := List.find?_some hfind
      rcases Bool.or_eq_true_iff.mp this with h1 | h2
      · exact Or.inl (by exact_mod_cast of_decide_eq_true h1)
      · exact Or.inr (by exact_mod_cast of_decide_eq_true h2)
    · simp only [reorder_pages, hv, hnb]
      simp [hfind]

/-- Witness for C5: reordering the 3-page example with order 0,0,1
duplicates page 0 and drops page 2, yielding a 3-page output. -/
theorem reorder_generalized_selection_witness :
    reorder_pages pdfFileA [0, 0, 1] = .ok 3 3 [0, 0, 1] [1, 1, 2] := by
  have h := ((reorder_generalized_selection pdfFileA [0, 0, 1]
    (by decide) (by decide)).1 (by decide)).1
  simpa [pdfFileA, readerPages] using h

/-- Model of the Python range(a, b) integer sequence. -/
def pyRange (a b : Int) : List Int :=
  (List.range (b - a).toNat).map (fun k => a + Int.ofNat k)

/-- One output document of split_pdf: its conventional filename, the
originating 1-based range, the reported page count, and its pages. -/
structure SplitOut where
  filename : String
  page_range : Int × Int
  page_count : Int
  pages : List Page
deriving DecidableEq

/-- Result record of split_pdf. -/
inductive SplitResult where
  | err (msg : String)
  | ok (total_pages : Nat) (split_count : Nat) (output_files : List SplitOut)
deriving DecidableEq

/-- The split loop over the (enumerated) requested ranges: a range with
start below 1, end beyond the page total, or start above end is skipped,
any other range emits one output built from the reader pages at the
0-based positions start-1 .. end-1. -/
def splitLoop (ps : List Page) (total : Nat) : List (Int × Int) → Nat → List SplitOut
  | [], _ => []
  | (s, e) :: rest, i =>
      if decide (s < 1) || decide ((total : Int) < e) || decide (e < s) then
        splitLoop ps total rest (i + 1)
      else
        { filename := s!"split_{i + 1}_pages_{s}-{e}.pdf",
          page_range := (s, e),
          page_count := e - s + 1,
          pages := (pyRange (s - 1) e).map (fun j => ps.getD j.toNat 0) } ::
          splitLoop ps total rest (i + 1)

/-- Transliteration of split_pdf: validate the file, default to one
single-page range per page when no ranges are given, then run the split
loop, reporting the page total, the number of outputs, and the outputs. -/
def split_pdf (f : FSFile) (page_ranges : List (Int × Int)) : SplitResult :=
  let v := validate_pdf f
  if !v.1 then .err ("Invalid PDF file: " ++ v.2)
  else
    let ps := readerPages f
    let total := ps.length
    let ranges := if page_ranges.isEmpty then
        (List.range total).map (fun i => (Int.ofNat i + 1, Int.ofNat i + 1))
      else page_ranges
    let outs := splitLoop ps total ranges 0
    .ok total outs.length outs

/-- The surviving-range predicate of the specification: start at least 1,
end at most the page total, start at most end. -/
def keepRange (total : Nat) (q : Nat × Int × Int) : Bool :=
  decide (1 ≤ q.2.1) && decide (q.2.2 ≤ (total : Int)) && decide (q.2.1 ≤ q.2.2)

/-- The output the specification expects for a surviving enumerated
range: pages start .. end of the source as a contiguous slice, with
reported page count end - start + 1. -/
def specOut (ps : List Page) (q : Nat × Int × Int) : SplitOut :=
  { filename := s!"split_{q.1 + 1}_pages_{q.2.1}-{q.2.2}.pdf",
    page_range := q.2,
    page_count := q.2.2 - q.2.1 + 1,
    pages := (ps.drop (q.2.1 - 1).toNat).take (q.2.2 + 1 - q.2.1).toNat }

theorem range_map_getD (ps : List Page) :
    ∀ (n a : Nat), a + n ≤ ps.length →
      (List.range n).map (fun k => ps.getD (a + k) 0) = (ps.drop a).take n := by
  intro n a h
  apply List.ext_getElem
  · simp; omega
  · intro i h1 h2
    have hi : i < n := by simpa using h1
    have hmem : a + i < ps.length := by omega
    simp only [List.getElem_map, List.getElem_range]
    rw [List.getD_eq_getElem ps 0 hmem]
    rw [List.getElem_take, List.getElem_drop]

theorem pyRange_slice (ps : List Page) (s e : Int) (h1 : 1 ≤ s) (h2 : s ≤ e)
    (h3 : e ≤ (ps.length : Int)) :
    (pyRange (s - 1) e).map (fun j => ps.getD j.toNat 0) =
      (ps.drop (s - 1).toNat).take (e + 1 - s).toNat := by
  have hlen : (e - (s - 1)) = e + 1 - s := by ring
  have hbound : (s - 1).toNat + (e + 1 - s).toNat ≤ ps.length := by omega
  have key : (pyRange (s - 1) e).map (fun j => ps.getD j.toNat 0) =
      (List.range (e + 1 - s).toNat).map (fun k => ps.getD ((s - 1).toNat + k) 0) := by
    simp only [pyRange, hlen, List.map_map]
    apply List.map_congr_left
    intro k _
    simp only [Function.comp_apply]
    congr 1
    simp only [Int.ofNat_eq_coe]
    omega
  rw [key, range_map_getD ps _ _ hbound]

theorem splitLoop_eq_spec (ps : List Page) :
    ∀ (ranges : List (Int × Int)) (i : Nat),
      splitLoop ps ps.length ranges i =
        ((List.enumFrom i ranges).filter (keepRange ps.length)).map (specOut ps) := by
  intro ranges
  induction ranges with
  | nil => intro i; simp [splitLoop, List.enumFrom]
  | cons r rest ih =>
      intro i
      obtain ⟨s, e⟩ := r
      by_cases hskip : s < 1 ∨ (ps.length : Int) < e ∨ e < s
      · have hcond : (decide (s < 1) || decide ((ps.length : Int) < e) || decide (e < s)) = true := by
          simp only [Bool.or_eq_true, decide_eq_true_eq]
          omega
        have hkeep : keepRange ps.length (i, s, e) = false := by
          rw [Bool.eq_false_iff]
          intro hc
          simp only [keepRange, Bool.and_eq_true, decide_eq_true_eq] at hc
          omega
        simp only [splitLoop, hcond, if_true, List.enumFrom, List.filter_cons, hkeep]
        exact ih (i + 1)
      · push_neg at hskip
        obtain ⟨h1', h2', h3'⟩ := hskip
        have hcond : (decide (s < 1) || decide ((ps.length : Int) < e) || decide (e < s)) = false := by
          rw [Bool.eq_false_iff]
          intro hc
          simp only [Bool.or_eq_true, decide_eq_true_eq] at hc
          omega
        have hkeep : keepRange ps.length (i, s, e) = true := by
          simp only [keepRange, Bool.and_eq_true, decide_eq_true_eq]
          omega
        simp only [splitLoop, hcond, Bool.false_eq_true, if_false,
          List.enumFrom, List.filter_cons, hkeep, if_true, List.map_cons]
        rw [ih (i + 1), pyRange_slice ps s e h1' h3' h2']
        rfl

theorem enumFrom_map_range' {β : Type} (g : Nat → β) :
    ∀ (n a : Nat), List.enumFrom a ((List.range' a n).map g) =
      (List.range' a n).map (fun k => (k, g k)) := by
  intro n
  induction n with
  | zero => intro a; rfl
  | succ m ih =>
      intro a
      simp only [List.range', List.map_cons, List.enumFrom]
      rw [ih (a + 1)]

/-- C4: Split is lenient per range. For a valid document: with a
non-empty range list, the call succeeds and the outputs are exactly one
per surviving range (ranges with start below 1, end beyond the page
count, or start above end are silently dropped), each output holding
the contiguous slice of pages start .. end with reported page count
end - start + 1; with no ranges given, the call produces one
single-page output per page of the document. -/
theorem split_lenient_per_range (f : FSFile) (page_ranges : List (Int × Int))
    (hv : validate_pdf f = (true, "")) :
    (page_ranges ≠ [] →
      split_pdf f page_ranges =
        .ok (readerPages f).length
          ((((List.enumFrom 0 page_ranges).filter
            (keepRange (readerPages f).length)).map (specOut (readerPages f))).length)
          (((List.enumFrom 0 page_ranges).filter
            (keepRange (readerPages f).length)).map (specOut (readerPages f))))
    ∧ (split_pdf f [] =
        .ok (readerPages f).length (readerPages f).length
          ((List.range (readerPages f).length).map
            (fun i => specOut (readerPages f) (i, (Int.ofNat i + 1, Int.ofNat i + 1)))))
    ∧ (∀ i, i < (readerPages f).length →
        (specOut (readerPages f) (i, (Int.ofNat i + 1, Int.ofNat i + 1))).pages =
          [(readerPages f).getD i 0]) := by
  refine ⟨?_, ?_, ?_⟩
  · intro hne
    have hnb : page_ranges.isEmpty = false := by
      cases page_ranges with
      | nil => exact absurd rfl hne
      | cons a l => rfl
    simp only [split_pdf, hv, hnb, Bool.false_eq_true, if_false]
    simp [splitLoop_eq_spec]
  · have hdef : (List.isEmpty ([] : List (Int × Int))) = true := rfl
    simp only [split_pdf, hv, hdef, if_true]
    simp only [splitLoop_eq_spec]
    have henum : List.enumFrom 0 ((List.range (readerPages f).length).map
        (fun i => (Int.ofNat i + 1, Int.ofNat i + 1))) =
        (List.range (readerPages f).length).map
          (fun i => (i, (Int.ofNat i + 1, Int.ofNat i + 1))) := by
      rw [List.range_eq_range']
      exact enumFrom_map_range' _ (readerPages f).length 0
    rw [henum]
    have hfilter : ((List.range (readerPages f).length).map
        (fun i => (i, (Int.ofNat i + 1, Int.ofNat i + 1)))).filter
          (keepRange (readerPages f).length) =
        (List.range (readerPages f).length).map
          (fun i => (i, (Int.ofNat i + 1, Int.ofNat i + 1))) := by
      apply List.filter_eq_self.mpr
      intro q hq
      rcases List.mem_map.mp hq with ⟨i, hi, rfl⟩
      have hilt : i < (readerPages f).length := List.mem_range.mp hi
      simp only [keepRange, Bool.and_eq_true, decide_eq_true_eq, Int.ofNat_eq_coe]
      refine ⟨⟨by omega, by omega⟩, by omega⟩
    rw [hfilter]
    simp
  · intro i hi
    simp only [specOut]
    have ha : (Int.ofNat i + 1 - 1).toNat = i := by
      simp only [Int.ofNat_eq_coe]; omega
    have hb : (Int.ofNat i + 1 + 1 - (Int.ofNat i + 1)).toNat = 1 := by
      simp only [Int.ofNat_eq_coe]; omega
    rw [ha, hb]
    have hlt : i < ((readerPages f).drop i).length + i := by
      simp [List.length_drop]; omega
    rw [List.getD_eq_getElem (readerPages f) 0 hi]
    cases hdrop : (readerPages f).drop i with
    | nil =>
        exfalso
        have := List.length_drop i (readerPages f)
        rw [hdrop] at this
        simp at this
        omega
    | cons a t =>
        have hga : ((readerPages f).drop i)[0]? = some a := by
          rw [hdrop]
          simp
        rw [List.getElem?_drop, Nat.add_zero, List.getElem?_eq_getElem hi] at hga
        have ha : a = (readerPages f)[i] := (Option.some.inj hga).symm
        simp [List.take, ha]

/-- Example document file with five pages, valid under both parsers. -/
def pdfFileC : FSFile := ⟨true, "c.pdf", .ok [1, 2, 3, 4, 5], .ok [1, 2, 3, 4, 5]⟩

/-- Witness for C4: splitting a 5-page document at ranges (1,3) and
(10,20) yields exactly one output, pages 1-3; the out-of-range request
is dropped without failing the call. -/
theorem split_lenient_per_range_witness :
    split_pdf pdfFileC [(1, 3), (10, 20)] =
      .ok 5 1 [⟨"split_1_pages_1-3.pdf", (1, 3), 3, [1, 2, 3]⟩] := by
  have h := (split_lenient_per_range pdfFileC [(1, 3), (10, 20)] (by decide)).1
    (by decide)
  rw [h]
  decide

/-- Result record of insert_pdf_at_position. -/
inductive InsertResult where
  | err (msg : String)
  | ok (base_page_count insert_page_count : Nat) (insertion_position : Int)
       (new_page_count : Nat) (outputPages : List Page)
deriving DecidableEq

/-- Transliteration of insert_pdf_at_position: validate both inputs,
check the 0-based position against 0..baseCount, then emit base pages
before the position, all insert pages, and the remaining base pages. -/
def insert_pdf_at_position (base insert : FSFile) (position : Int) : InsertResult :=
  let vb := validate_pdf base
  if !vb.1 then .err ("Base PDF is invalid: " ++ vb.2)
  else
    let vi := validate_pdf insert
    if !vi.1 then .err ("Insert PDF is invalid: " ++ vi.2)
    else
      let bp := readerPages base
      let ip := readerPages insert
      if position < 0 ∨ (bp.length : Int) < position then
        .err s!"Invalid position {position + 1}. Base PDF has {bp.length} pages."
      else
        .ok bp.length ip.length (position + 1) (bp.length + ip.length)
          (bp.take position.toNat ++ ip ++ bp.drop position.toNat)

/-- C10: for an existing file whose name does not end in .pdf
(case-insensitively), validation returns the failure File is not a PDF
without inspecting the content: the result is the same for every parse
outcome, including well-formed documents. Consequently Merge, Split,
Reorder and Insert all fail on such an input. -/
theorem non_pdf_extension_rejected (onDisk : Bool) (p : String)
    (fz py : Except String (List Page))
    (hdisk : onDisk = true) (hext : endsWithPdf p = false) :
    validate_pdf ⟨onDisk, p, fz, py⟩ = (false, "File is not a PDF")
    ∧ (∀ g : FSFile, merge_pdfs [⟨onDisk, p, fz, py⟩, g] =
        .err ("Invalid PDF file " ++ basename p ++ ": File is not a PDF"))
    ∧ (∀ ranges, split_pdf ⟨onDisk, p, fz, py⟩ ranges =
        .err "Invalid PDF file: File is not a PDF")
    ∧ (∀ order, reorder_pages ⟨onDisk, p, fz, py⟩ order =
        .err "Invalid PDF file: File is not a PDF")
    ∧ (∀ (g : FSFile) (pos : Int), insert_pdf_at_position ⟨onDisk, p, fz, py⟩ g pos =
        .err "Base PDF is invalid: File is not a PDF")
    ∧ (∀ (g : FSFile) (pos : Int), (validate_pdf g).1 = true →
        insert_pdf_at_position g ⟨onDisk, p, fz, py⟩ pos =
          .err "Insert PDF is invalid: File is not a PDF") := by
  subst hdisk
  have hval : validate_pdf ⟨true, p, fz, py⟩ = (false, "File is not a PDF") := by
    simp [validate_pdf, hext]
  refine ⟨hval, ?_, ?_, ?_, ?_, ?_⟩
  · intro g
    have hfind : List.find? (fun f => !(validate_pdf f).1) [⟨true, p, fz, py⟩, g] =
        some ⟨true, p, fz, py⟩ := by
      simp [List.find?, hval]
    simp only [merge_pdfs, List.length_cons, hfind]
    rw [hval]
    simp only []
    norm_num
    rw [String.append_assoc]
    congr 1
  · intro ranges
    simp [split_pdf, hval]
  · intro order
    simp [reorder_pages, hval]
  · intro g pos
    simp [insert_pdf_at_position, hval]
  · intro g pos hg
    simp [insert_pdf_at_position, hval, hg]

/-- Witness for C10: a file named doc.txt whose bytes parse as a
well-formed two-page document is still rejected by validation, and
merge with a valid file fails naming it. -/
theorem non_pdf_extension_rejected_witness :
    validate_pdf txtFile = (false, "File is not a PDF")
    ∧ merge_pdfs [txtFile, pdfFileA] =
        .err "Invalid PDF file doc.txt: File is not a PDF"
    ∧ reorder_pages txtFile [0] = .err "Invalid PDF file: File is not a PDF" := by
  have h := non_pdf_extension_rejected true "doc.txt" (.ok [8, 9]) (.ok [8, 9])
    rfl (by decide)
  exact ⟨h.1, h.2.1 pdfFileA, h.2.2.2.1 [0]⟩

/-- Transliteration of the quality mapping in compress_with_pymupdf:
clean = max(0, min(int((100 - quality) / 10), 9)). Python int() applied
to the float quotient truncates toward zero, which Int.tdiv models
exactly for this quotient (the quotient of two machine integers by 10 is
never within floating-point error of an integer unless exact). -/
def cleanLevel (quality : Int) : Int :=
  max 0 (min ((100 - quality).tdiv 10) 9)

/-- The aggressiveness formula as the claim words it: the quotient
(100 - quality) / 10 rounded to the NEAREST integer (ties up) and then
clamped to 0..9; floor((2a + b) / (2b)) realizes rounding a / b to the
nearest integer. Stated from the claim text, for comparison with
cleanLevel. -/
def claimAggressiveness (quality : Int) : Int :=
  max 0 (min ((2 * (100 - quality) + 10).fdiv 20) 9)

/-- Counterexample for C6: at quality 54 the code computes
int(4.6) = 4 while rounding 4.6 to the nearest integer gives 5. -/
theorem clean_level_counterexample :
    cleanLevel 54 = 4 ∧ claimAggressiveness 54 = 5 ∧
      cleanLevel 54 ≠ claimAggressiveness 54 := by
  refine ⟨by decide, by decide, by decide⟩

/-- C6 (amended): the native-recompress strategy maps quality to
aggressiveness by TRUNCATING the quotient (100 - quality) / 10 toward
zero and clamping to 0..9; under the clamp this coincides with the
floored quotient for every integer quality. -/
theorem clean_level_truncates (quality : Int) :
    cleanLevel quality = max 0 (min ((100 - quality).fdiv 10) 9) := by
  rcases le_or_lt 0 (100 - quality) with h | h
  · rw [cleanLevel, Int.tdiv_eq_ediv h (by norm_num),
      Int.fdiv_eq_ediv _ (by norm_num)]
  · have ht : (100 - quality).tdiv 10 ≤ 0 := by
      have hn := Int.tdiv_nonneg (a := -(100 - quality)) (b := 10) (by omega) (by norm_num)
      rw [Int.neg_tdiv] at hn
      omega
    have hf : (100 - quality).fdiv 10 ≤ 0 := by
      rw [Int.fdiv_eq_ediv _ (by norm_num)]
      omega
    rw [cleanLevel]
    omega

/-- Round-half-to-even on an exact rational, the tie rule of Python
round(). -/
def roundHalfEven (x : ℚ) : ℤ :=
  let f := ⌊x⌋
  let r := x - (f : ℚ)
  if r < 1 / 2 then f
  else if 1 / 2 < r then f + 1
  else if f % 2 = 0 then f else f + 1

/-- Python round(x, 2) on the reported percentage, modelled on exact
rationals. -/
def round2 (x : ℚ) : ℚ := ((roundHalfEven (100 * x) : ℤ) : ℚ) / 100

/-- The result record assembled by compress_pdf. -/
structure CompressResult where
  success : Bool
  original_size : Nat
  compressed_size : Nat
  reduction : Int
  reduction_percent : ℚ
  method_used : String
deriving DecidableEq

/-- Transliteration of the reporting tail of compress_pdf, given the
observed on-disk sizes of the input and the strategy's output: reduction
is original minus compressed, the percentage is reduction over original
times 100 (0 when the original is empty) rounded to two decimal places,
and method_used records the strategy and quality. -/
def compress_pdf_report (method : String) (quality_level : Int)
    (original_size compressed_size : Nat) : CompressResult :=
  let reduction : Int := (original_size : Int) - (compressed_size : Int)
  let reduction_percent : ℚ :=
    if 0 < original_size then ((reduction : ℚ) / (original_size : ℚ)) * 100 else 0
  { success := true
    original_size := original_size
    compressed_size := compressed_size
    reduction := reduction
    reduction_percent := round2 reduction_percent
    method_used := method ++ "_" ++ toString quality_level }

/-- Counterexample for C7: compressing a 3-byte original to 2 bytes
reports 33.33 percent, not the exact value 100/3 percent. -/
theorem reduction_percent_counterexample :
    (compress_pdf_report "pil" 60 3 2).reduction_percent = 3333 / 100
    ∧ (((3 : ℚ) - 2) / 3) * 100 ≠ 3333 / 100 := by
  constructor
  · norm_num [compress_pdf_report, round2, roundHalfEven]
  · norm_num

theorem roundHalfEven_nonpos (x : ℚ) (hx : x ≤ 0) : roundHalfEven x ≤ 0 := by
  have hfl : (⌊x⌋ : ℤ) ≤ 0 := by
    have := Int.floor_le_floor hx
    simpa using this
  by_cases h1 : x - (⌊x⌋ : ℚ) < 1 / 2
  · simp only [roundHalfEven, if_pos h1]
    exact hfl
  · have hge : (1 : ℚ) / 2 ≤ x - (⌊x⌋ : ℚ) := not_lt.mp h1
    have hneg : ⌊x⌋ ≤ -1 := by
      by_contra hc
      push_neg at hc
      have h0 : ⌊x⌋ = 0 := le_antisymm hfl (by omega)
      rw [h0] at hge
      simp at hge
      linarith
    simp only [roundHalfEven, if_neg h1]
    by_cases h2 : 1 / 2 < x - (⌊x⌋ : ℚ)
    · simp only [if_pos h2]; omega
    · simp only [if_neg h2]
      by_cases h3 : ⌊x⌋ % 2 = 0
      · simp only [if_pos h3]; exact hfl
      · simp only [if_neg h3]; omega

/-- C7 (amended): for every run with positive original size, the
reported percentage equals (original - compressed) / original * 100
ROUNDED TO TWO DECIMAL PLACES; the compressed size and the (possibly
negative) absolute reduction are reported unclamped, and when the
strategy fails to shrink the input the reported reduction is negative
and the reported percentage nonpositive: there is no floor at zero. -/
theorem compress_report_fields (method : String) (q : Int) (o c : Nat) (ho : 0 < o) :
    (compress_pdf_report method q o c).reduction_percent =
      round2 ((((o : ℚ) - (c : ℚ)) / (o : ℚ)) * 100)
    ∧ (compress_pdf_report method q o c).compressed_size = c
    ∧ (compress_pdf_report method q o c).reduction = (o : Int) - (c : Int)
    ∧ (o < c → (compress_pdf_report method q o c).reduction < 0)
    ∧ (o ≤ c → (compress_pdf_report method q o c).reduction_percent ≤ 0) := by
  refine ⟨?_, rfl, rfl, ?_, ?_⟩
  · simp only [compress_pdf_report, if_pos ho]
    norm_num
  · intro hc
    simp only [compress_pdf_report]
    omega
  · intro hc
    simp only [compress_pdf_report, if_pos ho]
    have hx : (((o : Int) - (c : Int) : Int) : ℚ) / (o : ℚ) * 100 ≤ 0 := by
      apply mul_nonpos_of_nonpos_of_nonneg
      · apply div_nonpos_of_nonpos_of_nonneg
        · have hoc : (o : ℚ) ≤ (c : ℚ) := by exact_mod_cast hc
          push_cast
          linarith
        · positivity
      · norm_num
    have hr := roundHalfEven_nonpos _ (by nlinarith : 100 * ((((o : Int) - (c : Int) : Int) : ℚ) / (o : ℚ) * 100) ≤ 0)
    unfold round2
    apply div_nonpos_of_nonpos_of_nonneg
    · exact_mod_cast hr
    · norm_num

/-- Witness for C7 (amended): a 1000-byte original compressed to a
1500-byte output reports reduction -500 and percentage -50: the
failure to shrink is reported, not floored at zero. -/
theorem compress_report_fields_witness :
    (compress_pdf_report "pymupdf" 70 1000 1500).reduction_percent = -50
    ∧ (compress_pdf_report "pymupdf" 70 1000 1500).reduction = -500 := by
  have h := compress_report_fields "pymupdf" 70 1000 1500 (by norm_num)
  refine ⟨?_, ?_⟩
  · rw [h.1]
    norm_num [round2, roundHalfEven]
  · rw [h.2.2.1]
    norm_num

/-- An embedded raster image: its byte size, PIL color mode, and an
abstract content identifier. -/
structure EmbImage where
  size : Nat
  mode : String
  data : Nat
deriving DecidableEq

/-- A page of a document for the raster re-encode strategy: its
dimensions and its embedded image resources. -/
structure PdfPage where
  width : Int
  height : Int
  images : List EmbImage
deriving DecidableEq

/-- PIL conversion applied before the JPEG save: RGBA becomes RGB,
every other mode is left alone. -/
def pilConvertIfRGBA (im : EmbImage) : EmbImage :=
  if im.mode = "RGBA" then { im with mode := "RGB" } else im

/-- A temporary JPEG written into the temp directory by the image loop:
the page and image slot it came from, the converted source image, and
the requested quality. -/
structure TempJpeg where
  pageNum : Nat
  imgIndex : Nat
  source : EmbImage
  quality : Int
deriving DecidableEq

/-- The per-image loop of compress_with_pil on one page: images smaller
than 10000 bytes are skipped; each larger image is decoded, converted
from RGBA if needed, and saved as a temp JPEG at the requested quality.
Nothing is attached back to any page. -/
def pilImageLoop (pageNum : Nat) (quality : Int) : List EmbImage → Nat → List TempJpeg
  | [], _ => []
  | im :: rest, idx =>
      if im.size < 10000 then pilImageLoop pageNum quality rest (idx + 1)
      else ⟨pageNum, idx, pilConvertIfRGBA im, quality⟩ ::
        pilImageLoop pageNum quality rest (idx + 1)

/-- The page loop of compress_with_pil: each output page is a same-size
copy of the source page rendered onto a fresh page of the writer
(carrying the same image resources), and the image loop contributes only
temp JPEGs. -/
def pilPageLoop (quality : Int) : List PdfPage → Nat → List PdfPage × List TempJpeg
  | [], _ => ([], [])
  | pg :: rest, pageNum =>
      let newPage : PdfPage := { width := pg.width, height := pg.height, images := pg.images }
      let temps := pilImageLoop pageNum quality pg.images 0
      let r := pilPageLoop quality rest (pageNum + 1)
      (newPage :: r.1, temps ++ r.2)

/-- Transliteration of compress_with_pil: run the page loop, save the
writer pages as the output document, and remove the temp directory
holding the re-encoded JPEGs. The saved output is the first component. -/
def compress_with_pil (doc : List PdfPage) (quality : Int) : List PdfPage :=
  (pilPageLoop quality doc 0).1

/-- The re-encoded temp JPEGs compress_with_pil computes and then
discards when the temp directory is removed. -/
def compress_with_pil_tempWork (doc : List PdfPage) (quality : Int) : List TempJpeg :=
  (pilPageLoop quality doc 0).2

theorem pilPageLoop_fst (quality : Int) :
    ∀ (l : List PdfPage) (n : Nat), (pilPageLoop quality l n).1 = l := by
  intro l
  induction l with
  | nil => intro n; rfl
  | cons pg rest ih =>
      intro n
      simp only [pilPageLoop, ih (n + 1)]

theorem pilImageLoop_covers (pageNum : Nat) (quality : Int) (im : EmbImage) :
    ∀ (ims : List EmbImage) (idx : Nat), im ∈ ims → 10000 ≤ im.size →
      ∃ t ∈ pilImageLoop pageNum quality ims idx,
        t.source = pilConvertIfRGBA im ∧ t.quality = quality := by
  intro ims
  induction ims with
  | nil => intro idx h; exact absurd h (List.not_mem_nil im)
  | cons hd rest ih =>
      intro idx hmem hbig
      rcases List.mem_cons.mp hmem with heq | htl
      · subst heq
        have hns : ¬ im.size < 10000 := not_lt.mpr hbig
        refine ⟨⟨pageNum, idx, pilConvertIfRGBA im, quality⟩, ?_, rfl, rfl⟩
        simp only [pilImageLoop, if_neg hns]
        exact List.mem_cons_self _ _
      · rcases ih (idx + 1) htl hbig with ⟨t, htmem, hts, htq⟩
        refine ⟨t, ?_, hts, htq⟩
        by_cases hs : hd.size < 10000
        · simpa [pilImageLoop, if_pos hs] using htmem
        · simp only [pilImageLoop, if_neg hs]
          exact List.mem_cons_of_mem _ htmem

theorem pilPageLoop_covers (quality : Int) (pg : PdfPage) (im : EmbImage) :
    ∀ (l : List PdfPage) (n : Nat), pg ∈ l → im ∈ pg.images → 10000 ≤ im.size →
      ∃ t ∈ (pilPageLoop quality l n).2,
        t.source = pilConvertIfRGBA im ∧ t.quality = quality := by
  intro l
  induction l with
  | nil => intro n h; exact absurd h (List.not_mem_nil pg)
  | cons hd rest ih =>
      intro n hmem himg hbig
      rcases List.mem_cons.mp hmem with heq | htl
      · subst heq
        rcases pilImageLoop_covers n quality im pg.images 0 himg hbig with ⟨t, htmem, hts, htq⟩
        refine ⟨t, ?_, hts, htq⟩
        simp only [pilPageLoop]
        exact List.mem_append_left _ htmem
      · rcases ih (n + 1) htl himg hbig with ⟨t, htmem, hts, htq⟩
        refine ⟨t, ?_, hts, htq⟩
        simp only [pilPageLoop]
        exact List.mem_append_right _ htmem

/-- C1 (what the code actually does): the raster re-encode strategy
saves an output whose pages and image resources are IDENTICAL to the
input document's, for every document and quality: although a re-encoded
JPEG is computed for every image of at least 10000 bytes, none of those
bytes is ever spliced back into a page, so the saved output still
references the original images. -/
theorem pil_never_reattaches (doc : List PdfPage) (quality : Int) :
    compress_with_pil doc quality = doc
    ∧ ∀ pg ∈ doc, ∀ im ∈ pg.images, 10000 ≤ im.size →
        ∃ t ∈ compress_with_pil_tempWork doc quality,
          t.source = pilConvertIfRGBA im ∧ t.quality = quality := by
  constructor
  · exact pilPageLoop_fst quality doc 0
  · intro pg hpg im him hbig
    exact pilPageLoop_covers quality pg im doc 0 hpg him hbig

/-- Example one-page document holding a single 20000-byte RGBA image. -/
def bigImagePage : PdfPage := ⟨612, 792, [⟨20000, "RGBA", 42⟩]⟩

/-- Witness for C1: on the example document the saved output equals the
input exactly (the original image is still referenced) while the
re-encoded JPEG was computed and discarded. -/
theorem pil_never_reattaches_witness :
    compress_with_pil [bigImagePage] 30 = [bigImagePage]
    ∧ compress_with_pil_tempWork [bigImagePage] 30 =
        [⟨0, 0, ⟨20000, "RGB", 42⟩, 30⟩] := by
  exact ⟨(pil_never_reattaches [bigImagePage] 30).1, by decide⟩

/-- A possibly encrypted document file for the password operations: its
on-disk flag, encryption flag, the PyPDF2 decrypt return code as a
function of the supplied password (0 failed, 1 user password, 2 owner
password), and its pages. -/
structure EncFile where
  onDisk : Bool
  isEncrypted : Bool
  decrypt : String → Nat
  pages : List Page

/-- Result record of remove_pdf_password: an error message, or the
success message, the protection flag of the output, and the pages
written. -/
inductive PwResult where
  | err (msg : String)
  | ok (message : String) (prot : Bool) (outputPages : List Page)
deriving DecidableEq

/-- Transliteration of remove_pdf_password: missing-file check,
not-encrypted check, then decrypt with the supplied password; return
codes 1 and 2 both lead to the same success result (all pages copied,
no encryption), anything else reports an incorrect password. -/
def remove_pdf_password (f : EncFile) (password : String) : PwResult :=
  if !f.onDisk then .err "Input file does not exist"
  else if !f.isEncrypted then .err "PDF is not password protected"
  else
    let d := f.decrypt password
    if d = 1 ∨ d = 2 then
      .ok "Password protection removed successfully" false f.pages
    else .err "Incorrect password"

/-- Example encrypted file whose password grants user-level access. -/
def userProtFile : EncFile := ⟨true, true, fun _ => 1, [1, 2]⟩

/-- Example encrypted file whose password grants owner-level access. -/
def ownerProtFile : EncFile := ⟨true, true, fun _ => 2, [1, 2]⟩

/-- Counterexample for C9: a user-level decryption (code 1) and an
owner-level decryption (code 2) of otherwise identical documents return
EQUAL results, so the access tier achieved is not observable in the
returned result. -/
theorem unprotect_tier_not_observable :
    userProtFile.decrypt "pw" = 1
    ∧ ownerProtFile.decrypt "pw" = 2
    ∧ remove_pdf_password userProtFile "pw" = remove_pdf_password ownerProtFile "pw" := by
  exact ⟨rfl, rfl, rfl⟩

/-- C9 (amended): Unprotect fails with the not-protected error when the
document is not encrypted; otherwise it decrypts and fails with the
wrong-password error unless the return code grants user (1) or owner (2)
access; both tiers are accepted as success, and the returned result is
the same for both tiers (the tier achieved is NOT reported). -/
theorem unprotect_behavior (f : EncFile) (pw : String) (hd : f.onDisk = true) :
    (f.isEncrypted = false →
      remove_pdf_password f pw = .err "PDF is not password protected")
    ∧ (f.isEncrypted = true → f.decrypt pw ≠ 1 → f.decrypt pw ≠ 2 →
        remove_pdf_password f pw = .err "Incorrect password")
    ∧ (f.isEncrypted = true → (f.decrypt pw = 1 ∨ f.decrypt pw = 2) →
        remove_pdf_password f pw =
          .ok "Password protection removed successfully" false f.pages) := by
  refine ⟨?_, ?_, ?_⟩
  · intro he
    simp [remove_pdf_password, hd, he]
  · intro he h1 h2
    have hnot : ¬ (f.decrypt pw = 1 ∨ f.decrypt pw = 2) := by
      rintro (h | h)
      · exact h1 h
      · exact h2 h
    simp [remove_pdf_password, hd, he, hnot]
  · intro he hok
    simp [remove_pdf_password, hd, he, hok]

/-- Example unencrypted file. -/
def plainFile : EncFile := ⟨true, false, fun _ => 0, [3]⟩

/-- Example encrypted file on which the supplied password fails. -/
def wrongPwFile : EncFile := ⟨true, true, fun _ => 0, [4]⟩

/-- Witness for C9 (amended): the three behaviors at concrete files. -/
theorem unprotect_behavior_witness :
    remove_pdf_password plainFile "pw" = .err "PDF is not password protected"
    ∧ remove_pdf_password wrongPwFile "pw" = .err "Incorrect password"
    ∧ remove_pdf_password userProtFile "pw" =
        .ok "Password protection removed successfully" false [1, 2] := by
  refine ⟨(unprotect_behavior plainFile "pw" rfl).1 rfl,
    (unprotect_behavior wrongPwFile "pw" rfl).2.1 rfl (by decide) (by decide),
    (unprotect_behavior userProtFile "pw" rfl).2.2 rfl (Or.inl rfl)⟩

/-- Row-major coordinates of every pixel with luminance strictly below
the darkness threshold 200 (model of np.where on the single-channel
luminance array; the PIL conversion to luminance is performed by the
imaging library before this step). -/
def darkCoords (img : List (List Nat)) : List (Nat × Nat) :=
  img.enum.flatMap (fun p =>
    p.2.enum.filterMap (fun q => if q.2 < 200 then some (p.1, q.1) else none))

/-- Pixel (i, j) is darker than the threshold; out-of-bounds reads
default to white (255) and are never dark. -/
def isDark (img : List (List Nat)) (i j : Nat) : Bool :=
  decide ((img.getD i []).getD j 255 < 200)

theorem getD_eq_getElemOptD {α : Type} (l : List α) (n : Nat) (d : α) :
    l.getD n d = (l[n]?).getD d := by
  rw [← List.get?_eq_getElem?]
  rfl

theorem isDark_bounds (img : List (List Nat)) (i j : Nat)
    (h : isDark img i j = true) :
    i < img.length ∧ j < (img.getD i []).length ∧ (img.getD i []).getD j 255 < 200 := by
  have hlt := of_decide_eq_true h
  have hi : i < img.length := by
    by_contra hc
    push_neg at hc
    rw [List.getD_eq_default _ _ hc] at hlt
    rw [List.getD_eq_default _ _ (by simp : ([] : List Nat).length ≤ j)] at hlt
    omega
  have hj : j < (img.getD i []).length := by
    by_contra hc
    push_neg at hc
    rw [List.getD_eq_default _ _ hc] at hlt
    omega
  exact ⟨hi, hj, hlt⟩

theorem mem_darkCoords (img : List (List Nat)) (i j : Nat) :
    (i, j) ∈ darkCoords img ↔ isDark img i j = true := by
  constructor
  · intro hmem
    simp only [darkCoords, List.mem_flatMap, List.mem_filterMap] at hmem
    obtain ⟨⟨pi, row⟩, hp, ⟨qj, v⟩, hq, hif⟩ := hmem
    by_cases hv : v < 200
    · rw [if_pos hv] at hif
      have h2 := Option.some.inj hif
      have h3 : pi = i := congrArg Prod.fst h2
      have h4 : qj = j := congrArg Prod.snd h2
      subst h3
      subst h4
      have hp' : img[pi]? = some row := List.mk_mem_enum_iff_getElem?.mp hp
      have hq' : row[qj]? = some v := List.mk_mem_enum_iff_getElem?.mp hq
      have hrow : img.getD pi [] = row := by
        rw [getD_eq_getElemOptD, hp']
        rfl
      have hval : (img.getD pi []).getD qj 255 = v := by
        rw [hrow, getD_eq_getElemOptD, hq']
        rfl
      unfold isDark
      rw [hval]
      exact decide_eq_true hv
    · rw [if_neg hv] at hif
      exact absurd hif (by simp)
  · intro hdark
    obtain ⟨hi, hj, hlt⟩ := isDark_bounds img i j hdark
    simp only [darkCoords, List.mem_flatMap, List.mem_filterMap]
    have hrow : img.getD i [] = img[i] := by
      rw [getD_eq_getElemOptD, List.getElem?_eq_getElem hi]
      rfl
    refine ⟨(i, img.getD i []), ?_, (j, (img.getD i []).getD j 255), ?_, ?_⟩
    · rw [List.mk_mem_enum_iff_getElem?, hrow, List.getElem?_eq_getElem hi]
    · rw [List.mk_mem_enum_iff_getElem?, List.getD_eq_getElem _ _ hj]
      exact List.getElem?_eq_getElem hj
    · rw [if_pos hlt]

theorem foldl_min_spec (g : Nat × Nat → Nat) (l : List (Nat × Nat)) :
    ∀ a : Nat,
      (l.foldl (fun acc p => min acc (g p)) a = a ∨
        ∃ p ∈ l, l.foldl (fun acc p => min acc (g p)) a = g p)
      ∧ l.foldl (fun acc p => min acc (g p)) a ≤ a
      ∧ ∀ p ∈ l, l.foldl (fun acc p => min acc (g p)) a ≤ g p := by
  induction l with
  | nil => intro a; exact ⟨Or.inl rfl, le_refl a, by simp⟩
  | cons hd tl ih =>
      intro a
      have ihh := ih (min a (g hd))
      refine ⟨?_, ?_, ?_⟩
      · rcases ihh.1 with heq | ⟨p, hp, hpe⟩
        · rcases le_total a (g hd) with hle | hle
          · left
            simp only [List.foldl_cons]
            rw [heq, min_eq_left hle]
          · right
            refine ⟨hd, List.mem_cons_self _ _, ?_⟩
            simp only [List.foldl_cons]
            rw [heq, min_eq_right hle]
        · right
          exact ⟨p, List.mem_cons_of_mem _ hp, by simpa using hpe⟩
      · simp only [List.foldl_cons]
        exact le_trans ihh.2.1 (min_le_left _ _)
      · intro p hp
        rcases List.mem_cons.mp hp with rfl | hmem
        · simp only [List.foldl_cons]
          exact le_trans ihh.2.1 (min_le_right _ _)
        · simp only [List.foldl_cons]
          exact ihh.2.2 p hmem

theorem foldl_max_spec (g : Nat × Nat → Nat) (l : List (Nat × Nat)) :
    ∀ a : Nat,
      (l.foldl (fun acc p => max acc (g p)) a = a ∨
        ∃ p ∈ l, l.foldl (fun acc p => max acc (g p)) a = g p)
      ∧ a ≤ l.foldl (fun acc p => max acc (g p)) a
      ∧ ∀ p ∈ l, g p ≤ l.foldl (fun acc p => max acc (g p)) a := by
  induction l with
  | nil => intro a; exact ⟨Or.inl rfl, le_refl a, by simp⟩
  | cons hd tl ih =>
      intro a
      have ihh := ih (max a (g hd))
      refine ⟨?_, ?_, ?_⟩
      · rcases ihh.1 with heq | ⟨p, hp, hpe⟩
        · rcases le_total a (g hd) with hle | hle
          · right
            refine ⟨hd, List.mem_cons_self _ _, ?_⟩
            simp only [List.foldl_cons]
            rw [heq, max_eq_right hle]
          · left
            simp only [List.foldl_cons]
            rw [heq, max_eq_left hle]
        · right
          exact ⟨p, List.mem_cons_of_mem _ hp, by simpa using hpe⟩
      · simp only [List.foldl_cons]
        exact le_trans (le_max_left _ _) ihh.2.1
      · intro p hp
        rcases List.mem_cons.mp hp with rfl | hmem
        · simp only [List.foldl_cons]
          exact le_trans (le_max_right _ _) ihh.2.1
        · simp only [List.foldl_cons]
          exact ihh.2.2 p hmem

/-- The bounding box (y_min, y_max, x_min, x_max) of all dark pixels:
none when no pixel is dark, else mins and maxes of the row and column
coordinates (model of the .min and .max reductions on the np.where
index arrays). -/
def darkBounds (img : List (List Nat)) : Option (Nat × Nat × Nat × Nat) :=
  match darkCoords img with
  | [] => none
  | c :: cs =>
      some (cs.foldl (fun acc p => min acc p.1) c.1,
            cs.foldl (fun acc p => max acc p.1) c.1,
            cs.foldl (fun acc p => min acc p.2) c.2,
            cs.foldl (fun acc p => max acc p.2) c.2)

/-- The rows ytop..ybot and columns xleft..xright (inclusive) of the
image: the PIL crop with box (xleft, ytop, xright + 1, ybot + 1). -/
def subgrid (img : List (List Nat)) (ytop ybot xleft xright : Nat) : List (List Nat) :=
  ((img.drop ytop).take (ybot + 1 - ytop)).map
    (fun row => (row.drop xleft).take (xright + 1 - xleft))

/-- Transliteration of crop_signature on the luminance matrix: if no
pixel is darker than 200 return none, else pad the dark bounding box by
5 pixels on every side, clamping at 0 (saturating subtraction) and at
the image bounds, and crop to the padded box. -/
def crop_signature (img : List (List Nat)) : Option (List (List Nat)) :=
  match darkBounds img with
  | none => none
  | some (y_min, y_max, x_min, x_max) =>
      some (subgrid img (y_min - 5) (min (img.length - 1) (y_max + 5))
        (x_min - 5) (min ((img.headD []).length - 1) (x_max + 5)))

/-- Result surface of process_signature_image at the crop stage. -/
inductive SigResult where
  | err (msg : String)
  | ok (cropped : List (List Nat))
deriving DecidableEq

/-- The crop stage of process_signature_image: a failed crop reports the
no-signature error, a successful crop hands the cropped image on (to the
extraction stage, outside this claim). -/
def process_signature_crop (img : List (List Nat)) : SigResult :=
  match crop_signature img with
  | none => .err "No signature detected"
  | some c => .ok c

/-- C8: on a rectangular luminance image, Crop fails with the
no-signature-detected error when no pixel is strictly darker than 200;
otherwise the dark bounding box exists, its four edges each touch a dark
pixel, every dark pixel lies inside it, and the output is the image
cropped to that box expanded by 5 pixels on every side clamped to the
image bounds. -/
theorem crop_signature_spec (img : List (List Nat)) (w : Nat)
    (hw : ∀ r ∈ img, r.length = w) :
    ((∀ i j, i < img.length → j < w → 200 ≤ (img.getD i []).getD j 255) →
      crop_signature img = none
      ∧ process_signature_crop img = .err "No signature detected")
    ∧ (∀ i0 j0, isDark img i0 j0 = true → (darkBounds img).isSome = true)
    ∧ (∀ ymin ymax xmin xmax, darkBounds img = some (ymin, ymax, xmin, xmax) →
        (∃ j, isDark img ymin j = true) ∧ (∃ j, isDark img ymax j = true)
        ∧ (∃ i, isDark img i xmin = true) ∧ (∃ i, isDark img i xmax = true)
        ∧ (∀ i j, isDark img i j = true → ymin ≤ i ∧ i ≤ ymax ∧ xmin ≤ j ∧ j ≤ xmax)
        ∧ crop_signature img =
            some (subgrid img (ymin - 5) (min (img.length - 1) (ymax + 5))
              (xmin - 5) (min (w - 1) (xmax + 5)))
        ∧ process_signature_crop img =
            .ok (subgrid img (ymin - 5) (min (img.length - 1) (ymax + 5))
              (xmin - 5) (min (w - 1) (xmax + 5)))) := by
  have hrowlen : ∀ i, i < img.length → (img.getD i []).length = w := by
    intro i hi
    have : img.getD i [] = img[i] := by
      rw [getD_eq_getElemOptD, List.getElem?_eq_getElem hi]
      rfl
    rw [this]
    exact hw img[i] (List.getElem_mem hi)
  refine ⟨?_, ?_, ?_⟩
  · intro hnone
    have hdc : darkCoords img = [] := by
      cases hdc : darkCoords img with
      | nil => rfl
      | cons c cs =>
          exfalso
          have hcmem : (c.1, c.2) ∈ darkCoords img := by rw [hdc]; simp
          have hdark := (mem_darkCoords img c.1 c.2).mp hcmem
          obtain ⟨hi, hj, hlt⟩ := isDark_bounds img c.1 c.2 hdark
          have hjw : c.2 < w := by rw [← hrowlen c.1 hi]; exact hj
          exact absurd hlt (not_lt.mpr (hnone c.1 c.2 hi hjw))
    constructor
    · simp [crop_signature, darkBounds, hdc]
    · simp [process_signature_crop, crop_signature, darkBounds, hdc]
  · intro i0 j0 hdark
    have hmem := (mem_darkCoords img i0 j0).mpr hdark
    cases hdc : darkCoords img with
    | nil => rw [hdc] at hmem; exact absurd hmem (List.not_mem_nil _)
    | cons c cs => simp [darkBounds, hdc]
  · intro ymin ymax xmin xmax hdb
    cases hdc : darkCoords img with
    | nil => rw [darkBounds, hdc] at hdb; exact absurd hdb (by simp)
    | cons c cs =>
        have hdb' := hdb
        simp only [darkBounds, hdc] at hdb'
        have hdb2 := Option.some.inj hdb'
        have hy1 : cs.foldl (fun acc p => min acc p.1) c.1 = ymin :=
          congrArg (fun q => q.1) hdb2
        have hy2 : cs.foldl (fun acc p => max acc p.1) c.1 = ymax :=
          congrArg (fun q => q.2.1) hdb2
        have hx1 : cs.foldl (fun acc p => min acc p.2) c.2 = xmin :=
          congrArg (fun q => q.2.2.1) hdb2
        have hx2 : cs.foldl (fun acc p => max acc p.2) c.2 = xmax :=
          congrArg (fun q => q.2.2.2) hdb2
        have hmemdc : ∀ p : Nat × Nat, p ∈ darkCoords img → isDark img p.1 p.2 = true := by
          intro p hp
          exact (mem_darkCoords img p.1 p.2).mp hp
        have hcdark : isDark img c.1 c.2 = true := by
          apply hmemdc
          rw [hdc]; simp
        have hcsdark : ∀ p ∈ cs, isDark img p.1 p.2 = true := by
          intro p hp
          apply hmemdc
          rw [hdc]
          exact List.mem_cons_of_mem _ hp
        have hminY := foldl_min_spec (fun p => p.1) cs c.1
        have hmaxY := foldl_max_spec (fun p => p.1) cs c.1
        have hminX := foldl_min_spec (fun p => p.2) cs c.2
        have hmaxX := foldl_max_spec (fun p => p.2) cs c.2
        have hne : img ≠ [] := by
          obtain ⟨hi, _, _⟩ := isDark_bounds img c.1 c.2 hcdark
          intro hcon
          rw [hcon] at hi
          simp at hi
        have hhead : (img.headD []).length = w := by
          cases img with
          | nil => exact absurd rfl hne
          | cons r rs => exact hw r (by simp)
        refine ⟨?_, ?_, ?_, ?_, ?_, ?_, ?_⟩
        · rcases hminY.1 with heq | ⟨p, hp, hpe⟩
          · exact ⟨c.2, by rw [← hy1, heq]; exact hcdark⟩
          · exact ⟨p.2, by rw [← hy1, hpe]; exact hcsdark p hp⟩
        · rcases hmaxY.1 with heq | ⟨p, hp, hpe⟩
          · exact ⟨c.2, by rw [← hy2, heq]; exact hcdark⟩
          · exact ⟨p.2, by rw [← hy2, hpe]; exact hcsdark p hp⟩
        · rcases hminX.1 with heq | ⟨p, hp, hpe⟩
          · exact ⟨c.1, by rw [← hx1, heq]; exact hcdark⟩
          · exact ⟨p.1, by rw [← hx1, hpe]; exact hcsdark p hp⟩
        · rcases hmaxX.1 with heq | ⟨p, hp, hpe⟩
          · exact ⟨c.1, by rw [← hx2, heq]; exact hcdark⟩
          · exact ⟨p.1, by rw [← hx2, hpe]; exact hcsdark p hp⟩
        · intro i j hdark
          have hmem := (mem_darkCoords img i j).mpr hdark
          rw [hdc] at hmem
          rcases List.mem_cons.mp hmem with heq | hmem2
          · have hij1 : c.1 = i := (congrArg Prod.fst heq).symm
            have hij2 : c.2 = j := (congrArg Prod.snd heq).symm
            refine ⟨?_, ?_, ?_, ?_⟩
            · rw [← hy1, ← hij1]; exact hminY.2.1
            · rw [← hy2, ← hij1]; exact hmaxY.2.1
            · rw [← hx1, ← hij2]; exact hminX.2.1
            · rw [← hx2, ← hij2]; exact hmaxX.2.1
          · refine ⟨?_, ?_, ?_, ?_⟩
            · rw [← hy1]; exact hminY.2.2 (i, j) hmem2
            · rw [← hy2]; exact hmaxY.2.2 (i, j) hmem2
            · rw [← hx1]; exact hminX.2.2 (i, j) hmem2
            · rw [← hx2]; exact hmaxX.2.2 (i, j) hmem2
        · simp only [crop_signature, hdb, hhead]
        · simp only [process_signature_crop, crop_signature, hdb, hhead]

/-- Example 3x3 luminance image: white except one dark pixel in the
center. -/
def sigImg : List (List Nat) := [[255, 255, 255], [255, 0, 255], [255, 255, 255]]

/-- Witness for C8: the single dark center pixel of the 3x3 example
yields the box (1,1,1,1), whose 5-pixel padding clamps to the whole
image, so the crop returns the full image. -/
theorem crop_signature_spec_witness :
    crop_signature sigImg = some [[255, 255, 255], [255, 0, 255], [255, 255, 255]]
    ∧ process_signature_crop sigImg =
        .ok [[255, 255, 255], [255, 0, 255], [255, 255, 255]] := by
  have h := (crop_signature_spec sigImg 3 (by decide)).2.2 1 1 1 1 (by decide)
  constructor
  · rw [h.2.2.2.2.2.1]
    decide
  · rw [h.2.2.2.2.2.2]
    decide
end PdfTools
